import Mathlib

/-!
Verification development for the Alfred task-orchestration project.

The first part embeds the frontend task-management code
(`src/frontend/src/hooks/useTaskPolling.ts` and the `useTaskManager` hook)
as Lean definitions.  The second part models, from the design notes, the
orchestration core that the notes describe (plan validation and building,
the graph scheduler, the consolidator and the entity/fact store), and the
final part proves the stated properties of both.
-/

namespace Alfred

/-! ## Frontend task model (from `useTaskManager` / `useTaskPolling`) -/

/-- Task types of the frontend `Task` interface. -/
inductive TaskType
  | reservation
  | reschedule
  | cancel
  | info
deriving DecidableEq

/-- Task statuses of the frontend `Task` interface and of the `TaskUpdate`
snapshot returned by the status surface. -/
inductive TaskStatus
  | queued
  | calling
  | awaitingInput
  | completed
  | failed
deriving DecidableEq

/-- The `Task` interface of `useTaskManager`.  Optional TypeScript fields
become `Option` fields. -/
structure Task where
  id : String
  type : TaskType
  title : String
  description : String
  status : TaskStatus
  createdAt : String
  scheduledFor : Option String
  location : Option String
  participants : Option Nat
  outcome : Option String
  processId : Option String
deriving DecidableEq

/-- A `Partial<Task>` value: every field optional; `none` means the field is
absent from the update object. -/
structure TaskPatch where
  id : Option String := none
  type : Option TaskType := none
  title : Option String := none
  description : Option String := none
  status : Option TaskStatus := none
  createdAt : Option String := none
  scheduledFor : Option String := none
  location : Option String := none
  participants : Option Nat := none
  outcome : Option String := none
  processId : Option String := none
deriving DecidableEq

/-- Merge of one optional task field: a field present in the patch
overrides, an absent field keeps the old value. -/
def patchField {α : Type} (p : Option α) (old : Option α) : Option α :=
  match p with
  | some v => some v
  | none => old

/-- The TypeScript object spread `\x7b ...task, ...updates \x7d`: a field
present in the patch overrides the task field, an absent field keeps it. -/
def applyPatch (t : Task) (u : TaskPatch) : Task where
  id := u.id.getD t.id
  type := u.type.getD t.type
  title := u.title.getD t.title
  description := u.description.getD t.description
  status := u.status.getD t.status
  createdAt := u.createdAt.getD t.createdAt
  scheduledFor := patchField u.scheduledFor t.scheduledFor
  location := patchField u.location t.location
  participants := patchField u.participants t.participants
  outcome := patchField u.outcome t.outcome
  processId := patchField u.processId t.processId

/-- `updateTask` of `useTaskManager`: map over the task list, merging the
update object into every task whose `id` matches. -/
def updateTask (tasks : List Task) (tid : String) (updates : TaskPatch) : List Task :=
  tasks.map fun task => if task.id = tid then applyPatch task updates else task

/-! ## Status polling (from `useTaskPolling.ts`) -/

/-- The nested optional `task` object of a `TaskUpdate` snapshot. -/
structure TaskUpdateInfo where
  id : Option String := none
  type : Option TaskType := none
  title : Option String := none
  description : Option String := none
  status : Option TaskStatus := none
  createdAt : Option String := none
  scheduledFor : Option String := none
  location : Option String := none
  participants : Option Nat := none
  outcome : Option String := none
deriving DecidableEq

/-- The `TaskUpdate` snapshot delivered by `GET /status/id`. -/
structure TaskUpdate where
  status : TaskStatus
  task : Option TaskUpdateInfo := none
deriving DecidableEq

/-- Outcome of one `fetch` of the status endpoint as seen by
`fetchTaskStatus`: either parsed JSON data, or a thrown error (network
failure or a non-ok HTTP response). -/
inductive FetchOutcome
  | ok (data : TaskUpdate)
  | fetchFailed (msg : String)
deriving DecidableEq

/-- The hook state manipulated by `fetchTaskStatus`: the last snapshot, the
last error, and whether the one-second interval is still installed. -/
structure PollState where
  taskUpdate : Option TaskUpdate
  error : Option String
  isPolling : Bool
deriving DecidableEq

/-- Hook state right after the effect starts polling for a process id. -/
def initialPollState : PollState :=
  { taskUpdate := none, error := none, isPolling := true }

/-- The polling interval passed to `setInterval`, in milliseconds. -/
def pollIntervalMs : Nat := 1000

/-- One run of `fetchTaskStatus`: on success store the snapshot and clear
the error, then clear the interval when the status is `completed` or
`failed`; on a thrown error store the message and leave the interval
installed. -/
def fetchTaskStatus (st : PollState) (o : FetchOutcome) : PollState :=
  match o with
  | .ok data =>
      let st1 : PollState := { st with taskUpdate := some data, error := none }
      if data.status = .completed ∨ data.status = .failed then
        { st1 with isPolling := false }
      else
        st1
  | .fetchFailed msg => { st with error := some msg }

/-- The stopping condition of `fetchTaskStatus`: a successfully fetched
snapshot whose status is `completed` or `failed`; fetch errors and every
other status keep the interval installed. -/
def reportsTerminal : FetchOutcome → Bool
  | .ok d => d.status = .completed || d.status = .failed
  | .fetchFailed _ => false

/-- The polling loop for one process id: each installed interval tick (and
the initial immediate call) consumes the next fetch outcome; once the
interval is cleared no further fetch runs.  Returns the final hook state
and the list of outcomes that were actually fetched. -/
def pollRun : PollState → List FetchOutcome → PollState × List FetchOutcome
  | st, [] => (st, [])
  | st, o :: rest =>
      if st.isPolling then
        let next := pollRun (fetchTaskStatus st o) rest
        (next.1, o :: next.2)
      else
        (st, [])

/-! ## Entity/Fact Store (modelled from the spec, §3, §4.4, §4.5) -/

/-- Modelled from the spec: a fact row of the Entity/Fact Store (§3 Fact).
The store implementation is not present in the repository source; only the
design notes describe it.  Confidence is a scaled natural number and
`observed_at` a logical timestamp. -/
structure FactRow where
  subject : String
  predicate : String
  value : String
  confidence : Nat
  provenance : String
  observed_at : Nat
deriving DecidableEq

/-- Modelled from the spec: the Entity/Fact Store row set, in insertion
order (history is retained, never overwritten). -/
structure FactStore where
  rows : List FactRow
deriving DecidableEq

/-- Modelled from the spec: the uniqueness key of a fact row — the
fact/provenance pair (§4.4 idempotence key). -/
def factKey (r : FactRow) : String × String × String × String :=
  (r.subject, r.predicate, r.value, r.provenance)

/-- Whether some row of the store already carries the given uniqueness key. -/
def hasKey (store : FactStore) (k : String × String × String × String) : Bool :=
  store.rows.any fun r => factKey r = k

/-- Modelled from the spec: `upsert_fact` keyed by the fact/provenance pair;
a row whose key is already present is not inserted again, otherwise the row
is appended (prior versions are never deleted). -/
def upsertFact (store : FactStore) (r : FactRow) : FactStore :=
  if hasKey store (factKey r) then store else { rows := store.rows ++ [r] }

/-- The structured triples extracted from one terminal step result (§4.4:
the declared result schema already carries structured fields). -/
structure StepTriples where
  triples : List (String × String × String)
deriving DecidableEq

/-- Modelled from the spec: the input of the Consolidator — a terminated
process with its identifier, completion time and per-step extracted
triples.  The Consolidator is not present in the repository source. -/
structure CompletedProcess where
  process_id : String
  completed_at : Nat
  results : List StepTriples
deriving DecidableEq

/-- Default confidence attached to a consolidated fact (numeric value
implementation-tunable, §9). -/
def defaultConfidence : Nat := 100

/-- The fact row built from one extracted triple: provenance is the
process id and `observed_at` the process completion time (§4.4). -/
def rowOfTriple (p : CompletedProcess) (tr : String × String × String) : FactRow :=
  { subject := tr.1, predicate := tr.2.1, value := tr.2.2,
    confidence := defaultConfidence, provenance := p.process_id,
    observed_at := p.completed_at }

/-- All fact rows extracted from a terminated process, in step order. -/
def extractRows (p : CompletedProcess) : List FactRow :=
  ((p.results.map StepTriples.triples).flatten).map (rowOfTriple p)

/-- Modelled from the spec: `consolidate(process)` upserts every extracted
fact row into the store (§4.4). -/
def consolidate (store : FactStore) (p : CompletedProcess) : FactStore :=
  (extractRows p).foldl upsertFact store

/-! ## Plan Validator and Builder (modelled from the spec, §4.1) -/

/-- Modelled from the spec: automation levels of a fallback tier (§3
FallbackTier).  The Plan Validator and Builder is not present in the
repository source. -/
inductive AutomationLevel
  | fullAuto
  | assisted
  | notifyOnly
deriving DecidableEq

/-- Modelled from the spec: one fallback tier (§3), together with its
per-tier retry limit for transient failures (§4.2). -/
structure FallbackTier where
  automation_level : AutomationLevel
  tool_name : String
  prompt_template : String
  retry_limit : Nat
deriving DecidableEq

/-- Modelled from the spec: a candidate step as returned by the external
planner collaborator (§4.1, §6): a tool name, a prompt, referenced
dependency names, the declared output fields of its result, the values its
prompt references, and the fallback tiers the planner proposed. -/
structure CandidateStep where
  name : String
  tool_name : String
  prompt : String
  dependencies : List String
  declared_outputs : List String
  prompt_refs : List String
  supplied_tiers : List FallbackTier
deriving DecidableEq

/-- Modelled from the spec: a built step of a Plan (§3 Step; the dynamic
fields status, tier index, attempts and result live in the scheduler
state). -/
structure Step where
  step_id : String
  name : String
  tool_name : String
  dependencies : List String
  prompt_template : String
  fallback_tiers : List FallbackTier
deriving DecidableEq

/-- Modelled from the spec: a built plan (§3 Process, static part). -/
structure Plan where
  goal_text : String
  steps : List Step
deriving DecidableEq

/-- Modelled from the spec: the build-time error taxonomy (§7) — a
`ValidationError` carries the exact missing value. -/
inductive BuildError
  | validationError (missing_value : String)
  | dependencyCycleError
deriving DecidableEq

/-- Whitespace tokens of a string (an executable tokenizer on the
character list). -/
def strTokens (s : String) : List String :=
  ((s.toList).splitOn ' ').map fun cs => String.mk cs

/-- Whitespace tokens of the goal text. -/
def goalTokens (g : String) : List String := strTokens g

/-- Whether the Entity/Fact Store can resolve a referenced value by name
(e.g. a previously known phone number is a fact whose predicate is the
referenced name). -/
def resolvableFromStore (store : FactStore) (r : String) : Bool :=
  store.rows.any fun f => f.predicate = r

/-- Sufficiency of one referenced value (§4.1): present in the goal text,
or derivable from the declared output of a prior step, or resolvable from
the Entity/Fact Store. -/
def availableValue (g : String) (prior : List String) (store : FactStore) (r : String) : Bool :=
  (goalTokens g).contains r || prior.contains r || resolvableFromStore store r

/-- Modelled from the spec: the sufficiency check (§4.1), walking the
candidate list and accumulating declared outputs of prior steps; returns
the first referenced value that is not available. -/
def firstMissingAux (g : String) (store : FactStore) :
    List CandidateStep → List String → Option String
  | [], _ => none
  | c :: rest, prior =>
      match c.prompt_refs.find? (fun r => !availableValue g prior store r) with
      | some r => some r
      | none => firstMissingAux g store rest (prior ++ c.declared_outputs)

/-- The first missing referenced value of a candidate list, if any. -/
def firstMissing (g : String) (store : FactStore) (cands : List CandidateStep) : Option String :=
  firstMissingAux g store cands []

/-- Whether every dependency of a candidate is already in the emitted
topological order. -/
def depsSatisfied (done : List String) (c : CandidateStep) : Bool :=
  c.dependencies.all fun d => done.contains d

/-- Modelled from the spec: the topological sort of the cycle check (§4.1,
§9) — repeatedly remove every candidate whose dependencies are all already
emitted; if a round removes nothing while candidates remain, the sort
fails.  Fuel bounds the number of rounds. -/
def topoSortAux : Nat → List CandidateStep → List String → Option (List String)
  | _, [], done => some done
  | 0, _ :: _, _ => none
  | fuel + 1, remaining, done =>
      let ready := remaining.filter (depsSatisfied done)
      if ready.isEmpty then none
      else topoSortAux fuel (remaining.filter fun c => !depsSatisfied done c)
        (done ++ ready.map CandidateStep.name)

/-- The topological sort of a candidate list (enough fuel for one removal
per round). -/
def topoSort (cands : List CandidateStep) : Option (List String) :=
  topoSortAux cands.length cands []

/-- The tool bound to the terminal notify tier (the calendar/notification
agent, §6). -/
def notificationToolName : String := "calendar_notify"

/-- Modelled from the spec: the terminal `notify_only` tier synthesized
from the prompt of the step and the free-calendar-slot lookup of the
process owner (§4.1). -/
def synthesizedNotifyTier (c : CandidateStep) : FallbackTier :=
  { automation_level := .notifyOnly, tool_name := notificationToolName,
    prompt_template := c.prompt, retry_limit := 0 }

/-- Modelled from the spec: fallback-chain synthesis (§4.1) — keep the
planner tiers when they already end in a `notify_only` tier, otherwise
append the synthesized terminal tier. -/
def ensureTerminalTier (c : CandidateStep) : List FallbackTier :=
  match c.supplied_tiers.getLast? with
  | some t =>
      if t.automation_level = .notifyOnly then c.supplied_tiers
      else c.supplied_tiers ++ [synthesizedNotifyTier c]
  | none => [synthesizedNotifyTier c]

/-- The built step of a candidate: the candidate name is used as step id. -/
def stepOfCandidate (c : CandidateStep) : Step :=
  { step_id := c.name, name := c.name, tool_name := c.tool_name,
    dependencies := c.dependencies, prompt_template := c.prompt,
    fallback_tiers := ensureTerminalTier c }

/-- Modelled from the spec: `build(goal_text, planner_output)` (§4.1) — the
sufficiency check, then the cycle check, then fallback-chain synthesis; a
pure function with no side effect. -/
def build (goal_text : String) (store : FactStore) (cands : List CandidateStep) :
    Except BuildError Plan :=
  match firstMissing goal_text store cands with
  | some v => .error (.validationError v)
  | none =>
      match topoSort cands with
      | none => .error .dependencyCycleError
      | some _ => .ok { goal_text := goal_text, steps := cands.map stepOfCandidate }

/-- Modelled from the spec: a witness that the candidate dependency graph
is cyclic — a nonempty set of candidates each of which has a dependency
edge into the set.  A finite directed graph contains a directed cycle
exactly when such a set exists (the vertices of any cycle form one, and
conversely following edges inside the set must eventually repeat a
vertex). -/
def IsCycleSet (cands : List CandidateStep) (S : List CandidateStep) : Prop :=
  S ≠ [] ∧ (∀ c ∈ S, c ∈ cands) ∧
    ∀ c ∈ S, ∃ d ∈ c.dependencies, ∃ c2 ∈ S, c2.name = d

instance (cands S : List CandidateStep) : Decidable (IsCycleSet cands S) := by
  unfold IsCycleSet
  infer_instance

/-- The candidate dependency graph contains a cycle. -/
def HasCycle (cands : List CandidateStep) : Prop :=
  ∃ S, IsCycleSet cands S

/-! ## Step execution with fallback tiers (modelled from the spec, §4.2) -/

/-- Modelled from the spec: the classified response of one tool invocation
(§6 Tool Gateway). -/
inductive ToolResponse
  | succeeded
  | failedTransient
  | failedPermanent
deriving DecidableEq

/-- Modelled from the spec: the response of a tier — a `notify_only` tier
always succeeds (§4.2), any other tier reports the gateway response. -/
def tierResponse (t : FallbackTier) (r : ToolResponse) : ToolResponse :=
  if t.automation_level = .notifyOnly then .succeeded else r

/-- Modelled from the spec: run one tier against a response stream starting
at cursor `k`, retrying transient failures while attempts remain; returns
whether the tier succeeded and how many attempts it consumed.  Exhausting
the budget counts as a permanent failure of the tier (§4.2). -/
def runTierAux (t : FallbackTier) (resp : Nat → ToolResponse) : Nat → Nat → Bool × Nat
  | _, 0 => (false, 0)
  | k, a + 1 =>
      match tierResponse t (resp k) with
      | .succeeded => (true, 1)
      | .failedPermanent => (false, 1)
      | .failedTransient =>
          ((runTierAux t resp (k + 1) a).1, (runTierAux t resp (k + 1) a).2 + 1)

/-- One tier is allowed its retry limit plus the initial attempt. -/
def runTier (t : FallbackTier) (resp : Nat → ToolResponse) (k : Nat) : Bool × Nat :=
  runTierAux t resp k (t.retry_limit + 1)

/-- Modelled from the spec: the step status state machine (§3 StepStatus). -/
inductive StepStatus
  | pending
  | ready
  | running
  | succeeded
  | failedTransient
  | failedPermanent
  | degradedComplete
deriving DecidableEq

/-- The two terminal step statuses (§3). -/
def StepStatus.isTerminal : StepStatus → Bool
  | .succeeded => true
  | .degradedComplete => true
  | _ => false

/-- Outcome of executing one step to termination: its terminal status, how
many tier advances happened, and how many tool attempts were consumed. -/
structure StepOutcome where
  status : StepStatus
  tierAdvances : Nat
  attempts : Nat
deriving DecidableEq

/-- Modelled from the spec: execute the fallback chain of one step (§4.2):
run the current tier; on success the step terminates (`SUCCEEDED` at the
first tier, `DEGRADED_COMPLETE` after at least one advance, §3); on a
permanent failure or an exhausted retry budget advance to the next tier.
Returns `none` only when execution falls past the last tier. -/
def runStepAux (resp : Nat → ToolResponse) :
    List FallbackTier → Nat → Nat → Nat → Option StepOutcome
  | [], _, _, _ => none
  | t :: rest, k, adv, att =>
      let res := runTier t resp k
      if res.1 then
        some { status := if adv = 0 then .succeeded else .degradedComplete,
               tierAdvances := adv, attempts := att + res.2 }
      else runStepAux resp rest (k + res.2) (adv + 1) (att + res.2)

/-- Execute a full fallback chain from the first tier. -/
def runStep (tiers : List FallbackTier) (resp : Nat → ToolResponse) : Option StepOutcome :=
  runStepAux resp tiers 0 0 0

/-- Total attempt budget of a fallback chain: per tier, the retry limit
plus the initial attempt. -/
def tierBudget (tiers : List FallbackTier) : Nat :=
  (tiers.map fun t => t.retry_limit + 1).sum

/-! ## Graph Scheduler as a transition system (modelled from the spec, §4.2, §5) -/

/-- Pointwise update of a status assignment at one step id. -/
def updateStatus (st : String → StepStatus) (sid : String) (v : StepStatus) :
    String → StepStatus :=
  fun x => if x = sid then v else st x

/-- Modelled from the spec: one scheduler transition on the per-step status
assignment (§3 StepStatus, §4.2).  A step becomes `READY` only when every
dependency is terminal; dispatch moves `READY` to `RUNNING`; a running step
finishes `SUCCEEDED`, `FAILED_TRANSIENT`, `FAILED_PERMANENT` or
`DEGRADED_COMPLETE`; a transient failure retries the same tier and a
permanent failure advances the tier, both re-entering `READY`. -/
inductive SchedStep (plan : Plan) :
    (String → StepStatus) → (String → StepStatus) → Prop
  | markReady (st : String → StepStatus) (s : Step) (hs : s ∈ plan.steps)
      (hp : st s.step_id = .pending)
      (hdeps : ∀ d ∈ s.dependencies, (st d).isTerminal = true) :
      SchedStep plan st (updateStatus st s.step_id .ready)
  | dispatch (st : String → StepStatus) (s : Step) (hs : s ∈ plan.steps)
      (hp : st s.step_id = .ready) :
      SchedStep plan st (updateStatus st s.step_id .running)
  | finishSucceeded (st : String → StepStatus) (s : Step) (hs : s ∈ plan.steps)
      (hp : st s.step_id = .running) :
      SchedStep plan st (updateStatus st s.step_id .succeeded)
  | finishTransient (st : String → StepStatus) (s : Step) (hs : s ∈ plan.steps)
      (hp : st s.step_id = .running) :
      SchedStep plan st (updateStatus st s.step_id .failedTransient)
  | finishPermanent (st : String → StepStatus) (s : Step) (hs : s ∈ plan.steps)
      (hp : st s.step_id = .running) :
      SchedStep plan st (updateStatus st s.step_id .failedPermanent)
  | finishDegraded (st : String → StepStatus) (s : Step) (hs : s ∈ plan.steps)
      (hp : st s.step_id = .running) :
      SchedStep plan st (updateStatus st s.step_id .degradedComplete)
  | retrySameTier (st : String → StepStatus) (s : Step) (hs : s ∈ plan.steps)
      (hp : st s.step_id = .failedTransient) :
      SchedStep plan st (updateStatus st s.step_id .ready)
  | advanceTier (st : String → StepStatus) (s : Step) (hs : s ∈ plan.steps)
      (hp : st s.step_id = .failedPermanent) :
      SchedStep plan st (updateStatus st s.step_id .ready)

/-- The initial status assignment: every step pending. -/
def initialStatuses : String → StepStatus := fun _ => .pending

/-- Reachable scheduler states of a plan. -/
inductive Reachable (plan : Plan) : (String → StepStatus) → Prop
  | init : Reachable plan initialStatuses
  | step {st st2 : String → StepStatus} :
      Reachable plan st → SchedStep plan st st2 → Reachable plan st2

/-- Modelled from the spec: the process-level status vocabulary.  The
`failed` member exists because the status vocabulary of the polling client
admits it; the aggregation below never produces it. -/
inductive ProcessStatus
  | running
  | completed
  | completedWithFallback
  | failed
deriving DecidableEq

/-- Modelled from the spec: process-level status aggregation (§4.2):
`RUNNING` while any step is non-terminal, `COMPLETED` when every step
ended `SUCCEEDED`, `COMPLETED_WITH_FALLBACK` when some step ended
`DEGRADED_COMPLETE`; the residual branch is total-function padding. -/
def overallStatus (plan : Plan) (st : String → StepStatus) : ProcessStatus :=
  if plan.steps.all (fun s => (st s.step_id).isTerminal) then
    if plan.steps.all (fun s => st s.step_id = StepStatus.succeeded) then .completed
    else if plan.steps.any (fun s => st s.step_id = StepStatus.degradedComplete) then
      .completedWithFallback
    else .failed
  else .running

/-! ## Retrieval (modelled from the spec, §4.5) -/

/-- Whitespace tokens of an elliptical query. -/
def tokenize (q : String) : List String := strTokens q

/-- Whitespace tokens of a fact value (the inverted-index keys, §3). -/
def valueTokens (r : FactRow) : List String := strTokens r.value

/-- Whether the inverted-index lookup finds the fact for this query: some
query token matches the predicate or occurs among the value tokens. -/
def matchesQuery (qt : List String) (r : FactRow) : Bool :=
  qt.any fun tok => tok = r.predicate || (valueTokens r).contains tok

/-- Number of query tokens with an exact predicate/value token match. -/
def matchCount (qt : List String) (r : FactRow) : Nat :=
  (qt.filter fun tok => tok = r.predicate || (valueTokens r).contains tok).length

/-- Frequency of prior user reference to an entity (§4.5 ranking
criterion 3), looked up in a reference-count table. -/
def refCount (rc : List (String × Nat)) (subject : String) : Nat :=
  (((rc.find? fun p => p.1 = subject).map Prod.snd).getD 0)

/-- Modelled from the spec: the ranking score of a candidate fact (§4.5) —
exact predicate/value token matches dominate, then fact recency, then
frequency of prior reference (weights implementation-tunable, §9; chosen
here so the criteria apply in order for bounded timestamps and counts). -/
def candidateScore (qt : List String) (rc : List (String × Nat)) (r : FactRow) : Nat :=
  1000000 * matchCount qt r + 1000 * r.observed_at + refCount rc r.subject

/-- Candidates ordered by descending score. -/
def scoreOrder (qt : List String) (rc : List (String × Nat)) : FactRow → FactRow → Prop :=
  fun a b => candidateScore qt rc b ≤ candidateScore qt rc a

instance (qt : List String) (rc : List (String × Nat)) : DecidableRel (scoreOrder qt rc) :=
  fun _ _ => Nat.decLe _ _

instance (qt : List String) (rc : List (String × Nat)) : IsTotal FactRow (scoreOrder qt rc) :=
  ⟨fun a b => Nat.le_total (candidateScore qt rc b) (candidateScore qt rc a)⟩

instance (qt : List String) (rc : List (String × Nat)) : IsTrans FactRow (scoreOrder qt rc) :=
  ⟨fun _ _ _ hab hbc => le_trans hbc hab⟩

/-- Modelled from the spec: the result of `query(tokens)` (§4.5): no
candidate, a top match with its confidence margin over the runner-up, or
`AMBIGUOUS` when the top two candidates are within the margin. -/
inductive QueryResult
  | noMatch
  | topMatch (top : FactRow) (margin : Nat)
  | ambiguous (top runnerUp : FactRow)
deriving DecidableEq

/-- Result selection over the ranked candidate list: no candidate, a
single top match with its own score as margin, or the comparison of the
top two scores against the ambiguity margin. -/
def pickTop (sc : FactRow → Nat) (margin : Nat) : List FactRow → QueryResult
  | [] => .noMatch
  | [r1] => .topMatch r1 (sc r1)
  | r1 :: r2 :: _ =>
      if sc r1 - sc r2 ≤ margin then .ambiguous r1 r2
      else .topMatch r1 (sc r1 - sc r2)

/-- The candidates of a query: the rows found through the inverted-index
lookup. -/
def queryCandidates (store : FactStore) (qt : List String) : List FactRow :=
  store.rows.filter (matchesQuery qt)

/-- Modelled from the spec: `query(tokens)` (§4.5) — tokenize, look up the
candidates through the inverted index, rank by score, and compare the top
two scores against the ambiguity margin (threshold tunable, §9). -/
def query (store : FactStore) (rc : List (String × Nat)) (margin : Nat) (q : String) :
    QueryResult :=
  pickTop (candidateScore (tokenize q) rc) margin
    (List.insertionSort (scoreOrder (tokenize q) rc) (queryCandidates store (tokenize q)))

/-! ## Claim-support predicates -/

/-- The field-by-field behaviour of `applyPatch`: an unlisted field is kept
unchanged and a listed field takes the patch value. -/
def PatchPreserves (t : Task) (u : TaskPatch) : Prop :=
  (u.id = none → (applyPatch t u).id = t.id) ∧
  (∀ v, u.id = some v → (applyPatch t u).id = v) ∧
  (u.type = none → (applyPatch t u).type = t.type) ∧
  (∀ v, u.type = some v → (applyPatch t u).type = v) ∧
  (u.title = none → (applyPatch t u).title = t.title) ∧
  (∀ v, u.title = some v → (applyPatch t u).title = v) ∧
  (u.description = none → (applyPatch t u).description = t.description) ∧
  (∀ v, u.description = some v → (applyPatch t u).description = v) ∧
  (u.status = none → (applyPatch t u).status = t.status) ∧
  (∀ v, u.status = some v → (applyPatch t u).status = v) ∧
  (u.createdAt = none → (applyPatch t u).createdAt = t.createdAt) ∧
  (∀ v, u.createdAt = some v → (applyPatch t u).createdAt = v) ∧
  (u.scheduledFor = none → (applyPatch t u).scheduledFor = t.scheduledFor) ∧
  (∀ v, u.scheduledFor = some v → (applyPatch t u).scheduledFor = some v) ∧
  (u.location = none → (applyPatch t u).location = t.location) ∧
  (∀ v, u.location = some v → (applyPatch t u).location = some v) ∧
  (u.participants = none → (applyPatch t u).participants = t.participants) ∧
  (∀ v, u.participants = some v → (applyPatch t u).participants = some v) ∧
  (u.outcome = none → (applyPatch t u).outcome = t.outcome) ∧
  (∀ v, u.outcome = some v → (applyPatch t u).outcome = some v) ∧
  (u.processId = none → (applyPatch t u).processId = t.processId) ∧
  (∀ v, u.processId = some v → (applyPatch t u).processId = some v)

/-- The declared outputs of a list of prior candidate steps, in order. -/
def collectOutputs (l : List CandidateStep) : List String :=
  (l.map CandidateStep.declared_outputs).flatten

/-- The value `v` is referenced by the prompt of some candidate step and is
neither in the goal text, nor among the declared outputs of the prior
steps, nor resolvable from the Entity/Fact Store. -/
def MissingRef (g : String) (store : FactStore) (cands : List CandidateStep) (v : String) : Prop :=
  ∃ pre c post, cands = pre ++ c :: post ∧ v ∈ c.prompt_refs ∧
    availableValue g (collectOutputs pre) store v = false

/-! ## Concrete instances used by the final checks -/

/-- Sample task with id `a`. -/
def taskA : Task :=
  { id := "a", type := .reservation, title := "Dinner", description := "table for two",
    status := .queued, createdAt := "t0", scheduledFor := none, location := none,
    participants := some 2, outcome := none, processId := some "proc1" }

/-- Sample task with id `b`. -/
def taskB : Task :=
  { id := "b", type := .info, title := "Opening hours", description := "ask for hours",
    status := .calling, createdAt := "t1", scheduledFor := none, location := none,
    participants := none, outcome := none, processId := none }

/-- Sample partial update: a new title and a new status. -/
def patchTitle : TaskPatch := { title := some "New title", status := some .completed }

/-- Sample snapshot with a non-terminal status. -/
def updCalling : TaskUpdate := { status := .calling }

/-- Sample snapshot with status completed. -/
def updCompleted : TaskUpdate := { status := .completed }

/-- Sample snapshot with status queued. -/
def updQueued : TaskUpdate := { status := .queued }

/-- Sample fetch outcomes preceding a terminal snapshot. -/
def pollPre : List FetchOutcome := [.fetchFailed "network down", .ok updCalling]

/-- Sample fetch outcomes that would follow the terminal snapshot. -/
def pollPost : List FetchOutcome := [.ok updQueued]

/-- Sample fetch outcomes none of which stops polling. -/
def pollOuts : List FetchOutcome := [.fetchFailed "busy", .ok updQueued]

/-- Sample fully automated tier with two retries. -/
def tierPhone : FallbackTier :=
  { automation_level := .fullAuto, tool_name := "phone", prompt_template := "call",
    retry_limit := 2 }

/-- Sample terminal notify tier. -/
def tierNotify : FallbackTier :=
  { automation_level := .notifyOnly, tool_name := notificationToolName,
    prompt_template := "notify", retry_limit := 0 }

/-- Sample fallback chain ending in the notify tier. -/
def tiersW : List FallbackTier := [tierPhone, tierNotify]

/-- Sample response stream that always reports a transient failure. -/
def respTransient : Nat → ToolResponse := fun _ => .failedTransient

/-- Sample step without dependencies. -/
def stepA : Step :=
  { step_id := "s1", name := "s1", tool_name := "phone", dependencies := [],
    prompt_template := "p1", fallback_tiers := tiersW }

/-- Sample step depending on `stepA`. -/
def stepB : Step :=
  { step_id := "s2", name := "s2", tool_name := "phone", dependencies := ["s1"],
    prompt_template := "p2", fallback_tiers := tiersW }

/-- Sample one-step plan. -/
def planA : Plan := { goal_text := "goal", steps := [stepA] }

/-- Sample two-step plan with one dependency edge. -/
def planAB : Plan := { goal_text := "goal", steps := [stepA, stepB] }

/-- Scheduler state after marking `stepA` ready. -/
def sState1 : String → StepStatus := updateStatus initialStatuses stepA.step_id .ready

/-- Scheduler state after dispatching `stepA`. -/
def sState2 : String → StepStatus := updateStatus sState1 stepA.step_id .running

/-- Scheduler state after `stepA` succeeded. -/
def sState3 : String → StepStatus := updateStatus sState2 stepA.step_id .succeeded

/-- Scheduler state after marking `stepB` ready. -/
def sState4 : String → StepStatus := updateStatus sState3 stepB.step_id .ready

/-- Scheduler state after dispatching `stepB`. -/
def sState5 : String → StepStatus := updateStatus sState4 stepB.step_id .running

/-- The empty fact store. -/
def storeEmpty : FactStore := { rows := [] }

/-- Cyclic candidate that also references a value available nowhere. -/
def candX : CandidateStep :=
  { name := "a", tool_name := "browser", prompt := "book", dependencies := ["b"],
    declared_outputs := [], prompt_refs := ["city"], supplied_tiers := [] }

/-- Cyclic candidate closing the cycle with `candX`. -/
def candY : CandidateStep :=
  { name := "b", tool_name := "browser", prompt := "book2", dependencies := ["a"],
    declared_outputs := [], prompt_refs := [], supplied_tiers := [] }

/-- Cyclic candidate with no prompt references. -/
def candP : CandidateStep :=
  { name := "p", tool_name := "browser", prompt := "formp", dependencies := ["q"],
    declared_outputs := [], prompt_refs := [], supplied_tiers := [] }

/-- Cyclic candidate closing the cycle with `candP`. -/
def candQ : CandidateStep :=
  { name := "q", tool_name := "browser", prompt := "formq", dependencies := ["p"],
    declared_outputs := [], prompt_refs := [], supplied_tiers := [] }

/-- Acyclic candidate with a supplied non-terminal tier. -/
def candU : CandidateStep :=
  { name := "u", tool_name := "browser", prompt := "form", dependencies := [],
    declared_outputs := ["confirmation"], prompt_refs := [], supplied_tiers := [tierPhone] }

/-- Acyclic candidate depending on `candU`. -/
def candV : CandidateStep :=
  { name := "v", tool_name := "phone", prompt := "call", dependencies := ["u"],
    declared_outputs := [], prompt_refs := [], supplied_tiers := [] }

/-- The plan built from `candU` and `candV`. -/
def planUV : Plan :=
  { goal_text := "goalUV", steps := [candU, candV].map stepOfCandidate }

/-- Underspecified hotel-booking candidate referencing a missing city. -/
def candHotel : CandidateStep :=
  { name := "hotel", tool_name := "browser", prompt := "book a hotel in city",
    dependencies := [], declared_outputs := [], prompt_refs := ["city"],
    supplied_tiers := [] }

/-- Sample fact learned from process `p1`. -/
def factM : FactRow :=
  { subject := "McDonalds", predicate := "menu_item", value := "hamburger",
    confidence := 90, provenance := "p1", observed_at := 5 }

/-- Sample fact learned from process `p2`, equally ranked with `factM`. -/
def factB : FactRow :=
  { subject := "BurgerKing", predicate := "menu_item", value := "hamburger",
    confidence := 90, provenance := "p2", observed_at := 5 }

/-- Sample store holding two equally ranked facts. -/
def storeMB : FactStore := { rows := [factM, factB] }

/-! ## Theorems -/

/-- C10: `updateTask(id, updates)` keeps the list length, leaves every task
whose id differs from the given id exactly unchanged, replaces the matching
task by the patched task, and the patch changes only the listed fields. -/
theorem updateTask_spec (tasks : List Task) (tid : String) (u : TaskPatch)
    (i : Nat) (h : i < tasks.length) :
    (updateTask tasks tid u).length = tasks.length ∧
    ((tasks.get ⟨i, h⟩).id ≠ tid →
      (updateTask tasks tid u).get ⟨i, by simpa [updateTask] using h⟩ = tasks.get ⟨i, h⟩) ∧
    ((tasks.get ⟨i, h⟩).id = tid →
      (updateTask tasks tid u).get ⟨i, by simpa [updateTask] using h⟩
        = applyPatch (tasks.get ⟨i, h⟩) u) ∧
    PatchPreserves (tasks.get ⟨i, h⟩) u := by
  have hlen : (updateTask tasks tid u).length = tasks.length := by
    simp [updateTask]
  have hget : ∀ (hh : i < (updateTask tasks tid u).length),
      (updateTask tasks tid u).get ⟨i, hh⟩
        = if (tasks.get ⟨i, h⟩).id = tid then applyPatch (tasks.get ⟨i, h⟩) u
          else tasks.get ⟨i, h⟩ := by
    intro hh
    simp [updateTask, List.get_eq_getElem, List.getElem_map]
  refine ⟨hlen, ?_, ?_, ?_⟩
  · intro hne
    rw [hget, if_neg hne]
  · intro heq
    rw [hget, if_pos heq]
  · unfold PatchPreserves
    refine ⟨?_, ?_, ?_, ?_, ?_, ?_, ?_, ?_, ?_, ?_, ?_, ?_, ?_, ?_, ?_, ?_, ?_, ?_, ?_,
      ?_, ?_, ?_⟩ <;>
      first
        | (intro hx; simp [applyPatch, patchField, hx])
        | (intro v hx; simp [applyPatch, patchField, hx])

/-- C10 witness: updating task id `b` leaves the task with id `a` at
position 0 unchanged. -/
theorem updateTask_spec_witness :
    (updateTask [taskA, taskB] "b" patchTitle).length = ([taskA, taskB] : List Task).length ∧
    (updateTask [taskA, taskB] "b" patchTitle).get ⟨0, by simp [updateTask]⟩ = taskA := by
  have H := updateTask_spec [taskA, taskB] "b" patchTitle 0 (by simp)
  exact ⟨H.1, H.2.1 (by decide)⟩

/-- Helper: a non-stopping fetch outcome keeps the interval installed. -/
theorem fetchTaskStatus_keeps_polling (st : PollState) (o : FetchOutcome)
    (hst : st.isPolling = true) (ho : reportsTerminal o = false) :
    (fetchTaskStatus st o).isPolling = true := by
  cases o with
  | ok d =>
      simp only [reportsTerminal, Bool.or_eq_false_iff, decide_eq_false_iff_not] at ho
      simp [fetchTaskStatus, ho.1, ho.2, hst]
  | fetchFailed m => simp [fetchTaskStatus, hst]

/-- Helper: once the interval is cleared, no further fetch runs. -/
theorem pollRun_not_polling (st : PollState) (l : List FetchOutcome)
    (hst : st.isPolling = false) : pollRun st l = (st, []) := by
  cases l with
  | nil => simp [pollRun]
  | cons o rest => simp [pollRun, hst]

/-- Helper: while no fetched snapshot is terminal, every outcome is fetched
and the interval stays installed. -/
theorem pollRun_continues (l : List FetchOutcome) :
    ∀ st : PollState, st.isPolling = true → (∀ o ∈ l, reportsTerminal o = false) →
      (pollRun st l).2 = l ∧ (pollRun st l).1.isPolling = true := by
  induction l with
  | nil =>
      intro st hst _
      simp [pollRun, hst]
  | cons o rest ih =>
      intro st hst hl
      have ho := hl o (by simp)
      have h1 : (fetchTaskStatus st o).isPolling = true :=
        fetchTaskStatus_keeps_polling st o hst ho
      have ih2 := ih (fetchTaskStatus st o) h1 (fun x hx => hl x (by simp [hx]))
      simp [pollRun, hst, ih2.1, ih2.2]

/-- Helper: a terminal snapshot is fetched, clears the interval, and
nothing after it is fetched. -/
theorem pollRun_stops (st : PollState) (hst : st.isPolling = true) (d : TaskUpdate)
    (hd : d.status = .completed ∨ d.status = .failed) (post : List FetchOutcome) :
    (pollRun st (.ok d :: post)).2 = [FetchOutcome.ok d] ∧
    (pollRun st (.ok d :: post)).1.isPolling = false := by
  have hstop : (fetchTaskStatus st (.ok d)).isPolling = false := by
    rcases hd with h | h <;> simp [fetchTaskStatus, h]
  have hrest := pollRun_not_polling (fetchTaskStatus st (.ok d)) post hstop
  simp [pollRun, hst, hrest, hstop]

/-- Helper: non-terminal snapshots and fetch errors are polled through, and
the first terminal snapshot ends polling. -/
theorem pollRun_first_terminal (pre : List FetchOutcome) :
    ∀ st : PollState, st.isPolling = true → (∀ o ∈ pre, reportsTerminal o = false) →
      ∀ (d : TaskUpdate), (d.status = .completed ∨ d.status = .failed) →
      ∀ post : List FetchOutcome,
        (pollRun st (pre ++ .ok d :: post)).2 = pre ++ [FetchOutcome.ok d] ∧
        (pollRun st (pre ++ .ok d :: post)).1.isPolling = false := by
  induction pre with
  | nil =>
      intro st hst _ d hd post
      simpa using pollRun_stops st hst d hd post
  | cons o rest ih =>
      intro st hst hpre d hd post
      have ho := hpre o (by simp)
      have h1 := fetchTaskStatus_keeps_polling st o hst ho
      have ih2 := ih (fetchTaskStatus st o) h1 (fun x hx => hpre x (by simp [hx])) d hd post
      simp [pollRun, hst, ih2.1, ih2.2]

/-- C9: once a fetched snapshot reports status completed or failed, the
interval is cleared and no further fetch is issued; fetch errors and every
other status keep polling at the one-second interval. -/
theorem useTaskPolling_stop_spec (pre post outs : List FetchOutcome) (d : TaskUpdate)
    (hpre : ∀ o ∈ pre, reportsTerminal o = false)
    (hd : d.status = .completed ∨ d.status = .failed)
    (houts : ∀ o ∈ outs, reportsTerminal o = false) :
    (pollRun initialPollState (pre ++ .ok d :: post)).2 = pre ++ [FetchOutcome.ok d] ∧
    (pollRun initialPollState (pre ++ .ok d :: post)).1.isPolling = false ∧
    (pollRun initialPollState outs).2 = outs ∧
    (pollRun initialPollState outs).1.isPolling = true ∧
    pollIntervalMs = 1000 := by
  have h1 := pollRun_first_terminal pre initialPollState rfl hpre d hd post
  have h2 := pollRun_continues outs initialPollState rfl houts
  exact ⟨h1.1, h1.2, h2.1, h2.2, rfl⟩

/-- C9 witness: a concrete trace with an error and a non-terminal snapshot,
then a completed snapshot; and a concrete trace that never stops. -/
theorem useTaskPolling_stop_spec_witness :
    (pollRun initialPollState (pollPre ++ .ok updCompleted :: pollPost)).2
      = pollPre ++ [FetchOutcome.ok updCompleted] ∧
    (pollRun initialPollState (pollPre ++ .ok updCompleted :: pollPost)).1.isPolling = false ∧
    (pollRun initialPollState pollOuts).2 = pollOuts ∧
    (pollRun initialPollState pollOuts).1.isPolling = true ∧
    pollIntervalMs = 1000 :=
  useTaskPolling_stop_spec pollPre pollPost pollOuts updCompleted
    (by decide) (by decide) (by decide)

/-- Helper: key membership as an existential over the rows. -/
theorem hasKey_iff (store : FactStore) (k : String × String × String × String) :
    hasKey store k = true ↔ ∃ x ∈ store.rows, factKey x = k := by
  simp [hasKey]

/-- Helper: the rows after one upsert. -/
theorem upsertFact_rows (store : FactStore) (r : FactRow) :
    (upsertFact store r).rows
      = if hasKey store (factKey r) then store.rows else store.rows ++ [r] := by
  unfold upsertFact
  split <;> rfl

/-- Helper: an upsert never removes a key. -/
theorem hasKey_upsert_mono (store : FactStore) (r : FactRow)
    (k : String × String × String × String) (h : hasKey store k = true) :
    hasKey (upsertFact store r) k = true := by
  rw [hasKey_iff] at h ⊢
  rw [upsertFact_rows]
  split
  · exact h
  · obtain ⟨x, hx, hkx⟩ := h
    exact ⟨x, by simp [hx], hkx⟩

/-- Helper: after an upsert the upserted key is present. -/
theorem hasKey_upsert_self (store : FactStore) (r : FactRow) :
    hasKey (upsertFact store r) (factKey r) = true := by
  by_cases hc : hasKey store (factKey r) = true
  · exact hasKey_upsert_mono store r (factKey r) hc
  · rw [hasKey_iff, upsertFact_rows, if_neg hc]
    exact ⟨r, by simp, rfl⟩

/-- Helper: a fold of upserts never removes a key. -/
theorem hasKey_foldl_mono (rows : List FactRow) :
    ∀ store k, hasKey store k = true →
      hasKey (rows.foldl upsertFact store) k = true := by
  induction rows with
  | nil => intro store k h; simpa using h
  | cons r rest ih =>
      intro store k h
      simp only [List.foldl_cons]
      exact ih (upsertFact store r) k (hasKey_upsert_mono store r k h)

/-- Helper: after folding the upserts of a row list, every key of the list
is present. -/
theorem hasKey_foldl_all (rows : List FactRow) :
    ∀ store, ∀ r ∈ rows, hasKey (rows.foldl upsertFact store) (factKey r) = true := by
  induction rows with
  | nil => intro store r hr; cases hr
  | cons x rest ih =>
      intro store r hr
      simp only [List.foldl_cons]
      rcases List.mem_cons.mp hr with h | h
      · subst h
        exact hasKey_foldl_mono rest (upsertFact store r) _ (hasKey_upsert_self store r)
      · exact ih (upsertFact store x) r h

/-- Helper: upserting rows whose keys are all present changes nothing. -/
theorem foldl_upsert_id (rows : List FactRow) :
    ∀ store, (∀ r ∈ rows, hasKey store (factKey r) = true) →
      rows.foldl upsertFact store = store := by
  induction rows with
  | nil => intro store _; rfl
  | cons x rest ih =>
      intro store hall
      have hx : upsertFact store x = store := by
        unfold upsertFact
        rw [if_pos (hall x (by simp))]
      simp only [List.foldl_cons, hx]
      exact ih store (fun r hr => hall r (by simp [hr]))

/-- C7: `consolidate` is idempotent per process — re-consolidating the same
unchanged results creates no fact rows beyond those of the first run,
because the fact/provenance pair is the uniqueness key. -/
theorem consolidate_idempotent (store : FactStore) (p : CompletedProcess) :
    consolidate (consolidate store p) p = consolidate store p := by
  unfold consolidate
  exact foldl_upsert_id (extractRows p) _
    (fun r hr => hasKey_foldl_all (extractRows p) store r hr)

/-- Helper: a notify tier succeeds with a single attempt. -/
theorem runTier_notify (t : FallbackTier) (h : t.automation_level = .notifyOnly)
    (resp : Nat → ToolResponse) (k : Nat) : runTier t resp k = (true, 1) := by
  unfold runTier
  simp [runTierAux, tierResponse, h]

/-- Helper: a tier consumes at most its allowed number of attempts. -/
theorem runTierAux_le (t : FallbackTier) (resp : Nat → ToolResponse) :
    ∀ (a k : Nat), (runTierAux t resp k a).2 ≤ a := by
  intro a
  induction a with
  | zero => intro k; simp [runTierAux]
  | succ n ih =>
      intro k
      cases h : tierResponse t (resp k) with
      | succeeded => simp [runTierAux, h]
      | failedPermanent => simp [runTierAux, h]
      | failedTransient =>
          simp only [runTierAux, h]
          have := ih (k + 1)
          omega

/-- Helper: a fallback chain ending in a notify tier terminates with a
terminal status within the tier count and the attempt budget. -/
theorem runStepAux_total (resp : Nat → ToolResponse) :
    ∀ (tiers : List FallbackTier) (t0 : FallbackTier),
      tiers.getLast? = some t0 → t0.automation_level = .notifyOnly →
      ∀ k adv att, ∃ o, runStepAux resp tiers k adv att = some o ∧
        (o.status = .succeeded ∨ o.status = .degradedComplete) ∧
        o.tierAdvances ≤ adv + tiers.length ∧
        o.attempts ≤ att + tierBudget tiers := by
  intro tiers
  induction tiers with
  | nil => intro t0 h; simp at h
  | cons t rest ih =>
      intro t0 hlast hnotify k adv att
      cases rest with
      | nil =>
          have ht : t = t0 := by simpa using hlast
          have hrun : runTier t resp k = (true, 1) :=
            runTier_notify t (by rw [ht]; exact hnotify) resp k
          refine ⟨{ status := if adv = 0 then .succeeded else .degradedComplete,
                    tierAdvances := adv, attempts := att + 1 }, ?_, ?_, ?_, ?_⟩
          · simp [runStepAux, hrun]
          · by_cases hadv : adv = 0 <;> simp [hadv]
          · simp
          · simp [tierBudget]
      | cons t2 rest2 =>
          have hlast2 : (t2 :: rest2).getLast? = some t0 := by
            rw [← hlast]
            exact (List.getLast?_cons_cons).symm
          have hres2 : (runTier t resp k).2 ≤ t.retry_limit + 1 :=
            runTierAux_le t resp (t.retry_limit + 1) k
          by_cases hok : (runTier t resp k).1 = true
          · refine ⟨{ status := if adv = 0 then .succeeded else .degradedComplete,
                      tierAdvances := adv, attempts := att + (runTier t resp k).2 },
                    ?_, ?_, ?_, ?_⟩
            · simp [runStepAux, hok]
            · by_cases hadv : adv = 0 <;> simp [hadv]
            · simp
            · simp only [tierBudget, List.map_cons, List.sum_cons]
              simp only [tierBudget] at hres2 ⊢
              omega
          · have hok2 : (runTier t resp k).1 = false := by simpa using hok
            obtain ⟨o, ho, hst, hadv2, hatt2⟩ :=
              ih t0 hlast2 hnotify (k + (runTier t resp k).2) (adv + 1)
                (att + (runTier t resp k).2)
            refine ⟨o, ?_, hst, ?_, ?_⟩
            · rw [runStepAux]
              rw [if_neg hok]
              exact ho
            · simp only [List.length_cons] at hadv2 ⊢
              omega
            · simp only [tierBudget, List.map_cons, List.sum_cons] at hatt2 ⊢
              omega

/-- Helper: `runStep` of a chain ending in a notify tier yields a terminal
outcome within the tier count and attempt budget. -/
theorem runStep_terminates (tiers : List FallbackTier) (resp : Nat → ToolResponse)
    (t0 : FallbackTier) (hlast : tiers.getLast? = some t0)
    (hnotify : t0.automation_level = .notifyOnly) :
    ∃ o, runStep tiers resp = some o ∧
      (o.status = .succeeded ∨ o.status = .degradedComplete) ∧
      o.tierAdvances ≤ tiers.length ∧
      o.attempts ≤ tierBudget tiers := by
  obtain ⟨o, ho, hst, hadv, hatt⟩ := runStepAux_total resp tiers t0 hlast hnotify 0 0 0
  exact ⟨o, ho, hst, by simpa using hadv, by simpa using hatt⟩

/-- Helper: a successful build maps every candidate through
`stepOfCandidate`. -/
theorem build_ok_steps (g : String) (store : FactStore) (cands : List CandidateStep)
    (plan : Plan) (hb : build g store cands = .ok plan) :
    plan.steps = cands.map stepOfCandidate := by
  unfold build at hb
  cases hm : firstMissing g store cands with
  | some v => rw [hm] at hb; exact Except.noConfusion hb
  | none =>
      rw [hm] at hb
      cases ht : topoSort cands with
      | none => rw [ht] at hb; exact Except.noConfusion hb
      | some ord =>
          rw [ht] at hb
          have := Except.ok.inj hb
          rw [← this]

/-- Helper: fallback-chain synthesis always ends in a notify tier. -/
theorem ensureTerminalTier_last (c : CandidateStep) :
    ∃ t, (ensureTerminalTier c).getLast? = some t ∧
      t.automation_level = .notifyOnly := by
  unfold ensureTerminalTier
  split
  next t hl =>
    by_cases hn : t.automation_level = .notifyOnly
    · rw [if_pos hn]
      exact ⟨t, hl, hn⟩
    · rw [if_neg hn]
      exact ⟨synthesizedNotifyTier c, List.getLast?_concat _, rfl⟩
  next hl =>
    exact ⟨synthesizedNotifyTier c, by simp, rfl⟩

/-- C4: every step of a built plan has a non-empty fallback chain whose
last tier is `notify_only`, so the scheduler can never advance a step past
its last tier — running the chain always yields an outcome. -/
theorem build_terminal_tier (g : String) (store : FactStore)
    (cands : List CandidateStep) (plan : Plan)
    (hb : build g store cands = .ok plan) :
    ∀ s ∈ plan.steps, s.fallback_tiers ≠ [] ∧
      (∃ t, s.fallback_tiers.getLast? = some t ∧
        t.automation_level = .notifyOnly) ∧
      ∀ resp, ∃ o, runStep s.fallback_tiers resp = some o := by
  intro s hs
  rw [build_ok_steps g store cands plan hb] at hs
  obtain ⟨c, hc, rfl⟩ := List.mem_map.mp hs
  obtain ⟨t, hlast, hn⟩ := ensureTerminalTier_last c
  have hne : (stepOfCandidate c).fallback_tiers ≠ [] := by
    intro h
    have h2 : ensureTerminalTier c = [] := h
    rw [h2] at hlast
    exact Option.noConfusion hlast
  refine ⟨hne, ⟨t, hlast, hn⟩, fun resp => ?_⟩
  obtain ⟨o, ho, -⟩ := runStep_terminates (stepOfCandidate c).fallback_tiers resp t hlast hn
  exact ⟨o, ho⟩

/-- C4 witness: the plan built from two concrete candidates, applied to the
step of `candV`, which got a synthesized terminal tier. -/
theorem build_terminal_tier_witness :
    (stepOfCandidate candV).fallback_tiers ≠ [] ∧
    (∃ t, (stepOfCandidate candV).fallback_tiers.getLast? = some t ∧
      t.automation_level = .notifyOnly) ∧
    ∀ resp, ∃ o, runStep (stepOfCandidate candV).fallback_tiers resp = some o :=
  build_terminal_tier "goalUV" storeEmpty [candU, candV] planUV rfl
    (stepOfCandidate candV) (by simp [planUV])

/-- C5: every step of a built plan, run against any tool response stream,
terminates in a terminal status within at most its number of fallback tiers
in tier-advances, consuming at most the per-tier retry budget overall. -/
theorem step_terminates_within_tiers (g : String) (store : FactStore)
    (cands : List CandidateStep) (plan : Plan)
    (hb : build g store cands = .ok plan)
    (s : Step) (hs : s ∈ plan.steps) (resp : Nat → ToolResponse) :
    ∃ o, runStep s.fallback_tiers resp = some o ∧
      (o.status = .succeeded ∨ o.status = .degradedComplete) ∧
      o.tierAdvances ≤ s.fallback_tiers.length ∧
      o.attempts ≤ tierBudget s.fallback_tiers := by
  rw [build_ok_steps g store cands plan hb] at hs
  obtain ⟨c, hc, rfl⟩ := List.mem_map.mp hs
  obtain ⟨t, hlast, hn⟩ := ensureTerminalTier_last c
  exact runStep_terminates (stepOfCandidate c).fallback_tiers resp t hlast hn

/-- C5 witness: the step of `candU` (a phone tier with two retries, then
the synthesized notify tier) against a stream of transient failures. -/
theorem step_terminates_within_tiers_witness :
    ∃ o, runStep (stepOfCandidate candU).fallback_tiers respTransient = some o ∧
      (o.status = .succeeded ∨ o.status = .degradedComplete) ∧
      o.tierAdvances ≤ (stepOfCandidate candU).fallback_tiers.length ∧
      o.attempts ≤ tierBudget (stepOfCandidate candU).fallback_tiers :=
  step_terminates_within_tiers "goalUV" storeEmpty [candU, candV] planUV rfl
    (stepOfCandidate candU) (by simp [planUV]) respTransient

/-- Helper: the sufficiency check fires when some candidate prompt
references an unavailable value. -/
theorem firstMissingAux_some_of (g : String) (store : FactStore) :
    ∀ (pre : List CandidateStep) (c : CandidateStep) (post : List CandidateStep)
      (prior : List String) (r : String), r ∈ c.prompt_refs →
      availableValue g (prior ++ collectOutputs pre) store r = false →
      (firstMissingAux g store (pre ++ c :: post) prior).isSome = true := by
  intro pre
  induction pre with
  | nil =>
      intro c post prior r hr hav
      have hav2 : availableValue g prior store r = false := by
        simpa [collectOutputs] using hav
      simp only [List.nil_append, firstMissingAux]
      cases hf : c.prompt_refs.find? (fun x => !availableValue g prior store x) with
      | some v => simp
      | none =>
          exfalso
          have hnone := List.find?_eq_none.mp hf r hr
          simp [hav2] at hnone
  | cons c0 rest ih =>
      intro c post prior r hr hav
      simp only [List.cons_append, firstMissingAux]
      cases hf : c0.prompt_refs.find? (fun x => !availableValue g prior store x) with
      | some v => simp
      | none =>
          have hav2 : availableValue g
              ((prior ++ c0.declared_outputs) ++ collectOutputs rest) store r = false := by
            rw [List.append_assoc]
            simpa [collectOutputs] using hav
          simpa using ih c post (prior ++ c0.declared_outputs) r hr hav2

/-- Helper: a value reported by the sufficiency check really is missing. -/
theorem firstMissingAux_missing (g : String) (store : FactStore) :
    ∀ (l : List CandidateStep) (prior : List String) (v : String),
      firstMissingAux g store l prior = some v →
      ∃ pre c post, l = pre ++ c :: post ∧ v ∈ c.prompt_refs ∧
        availableValue g (prior ++ collectOutputs pre) store v = false := by
  intro l
  induction l with
  | nil => intro prior v h; simp [firstMissingAux] at h
  | cons c0 rest ih =>
      intro prior v h
      simp only [firstMissingAux] at h
      cases hf : c0.prompt_refs.find? (fun x => !availableValue g prior store x) with
      | some v0 =>
          rw [hf] at h
          simp only [Option.some.injEq] at h
          subst h
          have hmem := List.mem_of_find?_eq_some hf
          have hp := List.find?_some hf
          refine ⟨[], c0, rest, by simp, hmem, ?_⟩
          simp only [collectOutputs, List.map_nil, List.flatten_nil, List.append_nil]
          simpa using hp
      | none =>
          rw [hf] at h
          obtain ⟨pre, c, post, heq, hmem, hav⟩ := ih (prior ++ c0.declared_outputs) v h
          refine ⟨c0 :: pre, c, post, by simp [heq], hmem, ?_⟩
          have hco : collectOutputs (c0 :: pre) = c0.declared_outputs ++ collectOutputs pre := by
            simp [collectOutputs]
          rw [hco, ← List.append_assoc]
          exact hav

/-- C6: when some candidate prompt references a value that is neither in
the goal text, nor among prior declared outputs, nor resolvable from the
store, build returns a `ValidationError` naming an exactly-missing value,
and no Plan (hence no Process) is created. -/
theorem build_insufficiency_validation (g : String) (store : FactStore)
    (cands : List CandidateStep) (pre : List CandidateStep) (c : CandidateStep)
    (post : List CandidateStep) (r : String)
    (hdecomp : cands = pre ++ c :: post)
    (hr : r ∈ c.prompt_refs)
    (hmiss : availableValue g (collectOutputs pre) store r = false) :
    ∃ v, build g store cands = .error (.validationError v) ∧
      MissingRef g store cands v ∧
      ∀ plan, build g store cands ≠ .ok plan := by
  subst hdecomp
  have hsome : (firstMissing g store (pre ++ c :: post)).isSome = true := by
    apply firstMissingAux_some_of g store pre c post [] r hr
    simpa using hmiss
  obtain ⟨v, hv⟩ := Option.isSome_iff_exists.mp hsome
  have hv2 : firstMissingAux g store (pre ++ c :: post) [] = some v := hv
  obtain ⟨pre2, c2, post2, heq, hmem, hav⟩ :=
    firstMissingAux_missing g store (pre ++ c :: post) [] v hv2
  have hbuild : build g store (pre ++ c :: post) = .error (.validationError v) := by
    unfold build
    rw [hv]
  refine ⟨v, hbuild, ⟨pre2, c2, post2, heq, hmem, by simpa using hav⟩, ?_⟩
  intro plan hplan
  rw [hbuild] at hplan
  exact Except.noConfusion hplan

/-- C6 witness: the hotel goal without a city — the missing value is
surfaced and no plan is produced. -/
theorem build_insufficiency_validation_witness :
    ∃ v, build "Book me a hotel next Friday" storeEmpty [candHotel]
        = .error (.validationError v) ∧
      MissingRef "Book me a hotel next Friday" storeEmpty [candHotel] v ∧
      ∀ plan, build "Book me a hotel next Friday" storeEmpty [candHotel] ≠ .ok plan :=
  build_insufficiency_validation "Book me a hotel next Friday" storeEmpty
    [candHotel] [] candHotel [] "city" rfl (by decide) (by decide)

/-- Helper: in a candidate list with pairwise-distinct names, a set all of
whose members keep a dependency edge inside the set can never be drained by
the round-based topological sort, so the sort fails. -/
theorem topoSortAux_cycle_none :
    ∀ (fuel : Nat) (remaining : List CandidateStep) (done : List String)
      (S : List CandidateStep),
      (remaining.map CandidateStep.name).Nodup →
      S ≠ [] → (∀ c ∈ S, c ∈ remaining) →
      (∀ c ∈ S, ∃ d ∈ c.dependencies, ∃ c2 ∈ S, c2.name = d) →
      (∀ c ∈ S, c.name ∉ done) →
      topoSortAux fuel remaining done = none := by
  intro fuel
  induction fuel with
  | zero =>
      intro remaining done S _ hS hsub _ _
      obtain ⟨c, hc⟩ := List.exists_mem_of_ne_nil S hS
      cases remaining with
      | nil => exact absurd (hsub c hc) (List.not_mem_nil c)
      | cons r rs => simp [topoSortAux]
  | succ n ih =>
      intro remaining done S hnd hS hsub hcyc hdone
      cases remaining with
      | nil =>
          obtain ⟨c, hc⟩ := List.exists_mem_of_ne_nil S hS
          exact absurd (hsub c hc) (List.not_mem_nil c)
      | cons r rs =>
          have hSdeps : ∀ c ∈ S, depsSatisfied done c = false := by
            intro c hc
            obtain ⟨d, hd, c2, hc2, hname⟩ := hcyc c hc
            have hnotin : d ∉ done := by
              rw [← hname]
              exact hdone c2 hc2
            apply List.all_eq_false.mpr
            refine ⟨d, hd, ?_⟩
            simpa using hnotin
          simp only [topoSortAux]
          by_cases hrdy : ((r :: rs).filter (depsSatisfied done)).isEmpty = true
          · simp [hrdy]
          · simp only [hrdy, if_false, Bool.false_eq_true]
            apply ih ((r :: rs).filter fun c => !depsSatisfied done c)
              (done ++ ((r :: rs).filter (depsSatisfied done)).map CandidateStep.name) S
            · exact hnd.sublist ((List.filter_sublist (r :: rs)).map CandidateStep.name)
            · exact hS
            · intro c hc
              exact List.mem_filter.mpr ⟨hsub c hc, by simp [hSdeps c hc]⟩
            · exact hcyc
            · intro c hc
              rw [List.mem_append]
              rintro (h | h)
              · exact hdone c hc h
              · obtain ⟨c2, hc2, hn2⟩ := List.mem_map.mp h
                have hc2m := List.mem_filter.mp hc2
                have hc2r : c2 ∈ r :: rs := hc2m.1
                have : c2 = c :=
                  List.inj_on_of_nodup_map hnd hc2r (hsub c hc) hn2
                rw [this] at hc2m
                rw [hSdeps c hc] at hc2m
                exact Bool.noConfusion hc2m.2

/-- Helper: a cyclic candidate list with distinct names makes the
topological sort fail. -/
theorem topoSort_cycle_none (cands : List CandidateStep)
    (hnd : (cands.map CandidateStep.name).Nodup) (hcyc : HasCycle cands) :
    topoSort cands = none := by
  obtain ⟨S, hS1, hS2, hS3⟩ := hcyc
  exact topoSortAux_cycle_none cands.length cands [] S hnd hS1 hS2 hS3
    (fun c _ => List.not_mem_nil c.name)

/-- C2 (amended): for candidate lists with pairwise-distinct names, a
cyclic dependency graph never yields a Plan, and when the sufficiency check
passes, build fails precisely with `DependencyCycleError`. -/
theorem build_cycle_rejected (g : String) (store : FactStore)
    (cands : List CandidateStep)
    (hnd : (cands.map CandidateStep.name).Nodup) (hcyc : HasCycle cands) :
    (∀ plan, build g store cands ≠ .ok plan) ∧
    (firstMissing g store cands = none →
      build g store cands = .error .dependencyCycleError) := by
  have htopo : topoSort cands = none := topoSort_cycle_none cands hnd hcyc
  constructor
  · intro plan h
    unfold build at h
    cases hm : firstMissing g store cands with
    | some v =>
        rw [hm] at h
        exact Except.noConfusion h
    | none =>
        rw [hm, htopo] at h
        exact Except.noConfusion h
  · intro hm
    unfold build
    rw [hm, htopo]

/-- C2 counterexample to the claim as stated: a cyclic candidate list whose
first step also references a value available nowhere is rejected with a
`ValidationError`, not with `DependencyCycleError` (the sufficiency check
runs first, §4.1). -/
theorem build_cycle_rejected_cex :
    HasCycle [candX, candY] ∧
    build "trip" storeEmpty [candX, candY] ≠ .error .dependencyCycleError := by
  constructor
  · exact ⟨[candX, candY], by decide⟩
  · intro h
    have hb : build "trip" storeEmpty [candX, candY]
        = .error (.validationError "city") := rfl
    rw [hb] at h
    simp at h

/-- C2 witness: a concrete two-step cycle with no missing values is
rejected with `DependencyCycleError` and never yields a Plan. -/
theorem build_cycle_rejected_witness :
    (∀ plan, build "goalPQ" storeEmpty [candP, candQ] ≠ .ok plan) ∧
    (firstMissing "goalPQ" storeEmpty [candP, candQ] = none →
      build "goalPQ" storeEmpty [candP, candQ] = .error .dependencyCycleError) :=
  build_cycle_rejected "goalPQ" storeEmpty [candP, candQ] (by decide)
    ⟨[candP, candQ], by decide⟩

/-- Helper: every scheduler transition updates exactly one step id, from a
non-terminal status, and only a pending step is updated subject to the
all-dependencies-terminal guard. -/
theorem schedStep_shape (plan : Plan) {st st2 : String → StepStatus}
    (h : SchedStep plan st st2) :
    ∃ s ∈ plan.steps, ∃ v : StepStatus,
      st2 = updateStatus st s.step_id v ∧
      (st s.step_id).isTerminal = false ∧
      (st s.step_id = .pending → ∀ d ∈ s.dependencies, (st d).isTerminal = true) := by
  cases h with
  | markReady s hs hp hdeps =>
      exact ⟨s, hs, .ready, rfl, by rw [hp]; rfl, fun _ => hdeps⟩
  | dispatch s hs hp =>
      exact ⟨s, hs, .running, rfl, by rw [hp]; rfl,
        by intro hpe; rw [hp] at hpe; exact StepStatus.noConfusion hpe⟩
  | finishSucceeded s hs hp =>
      exact ⟨s, hs, .succeeded, rfl, by rw [hp]; rfl,
        by intro hpe; rw [hp] at hpe; exact StepStatus.noConfusion hpe⟩
  | finishTransient s hs hp =>
      exact ⟨s, hs, .failedTransient, rfl, by rw [hp]; rfl,
        by intro hpe; rw [hp] at hpe; exact StepStatus.noConfusion hpe⟩
  | finishPermanent s hs hp =>
      exact ⟨s, hs, .failedPermanent, rfl, by rw [hp]; rfl,
        by intro hpe; rw [hp] at hpe; exact StepStatus.noConfusion hpe⟩
  | finishDegraded s hs hp =>
      exact ⟨s, hs, .degradedComplete, rfl, by rw [hp]; rfl,
        by intro hpe; rw [hp] at hpe; exact StepStatus.noConfusion hpe⟩
  | retrySameTier s hs hp =>
      exact ⟨s, hs, .ready, rfl, by rw [hp]; rfl,
        by intro hpe; rw [hp] at hpe; exact StepStatus.noConfusion hpe⟩
  | advanceTier s hs hp =>
      exact ⟨s, hs, .ready, rfl, by rw [hp]; rfl,
        by intro hpe; rw [hp] at hpe; exact StepStatus.noConfusion hpe⟩

/-- Helper: in every reachable state, a step that left `PENDING` has all of
its dependencies terminal (the strengthened invariant behind C3). -/
theorem reachable_dep_inv (plan : Plan)
    (hnd : (plan.steps.map Step.step_id).Nodup)
    {st : String → StepStatus} (hre : Reachable plan st) :
    ∀ s ∈ plan.steps, st s.step_id ≠ .pending →
      ∀ d ∈ s.dependencies, (st d).isTerminal = true := by
  induction hre with
  | init => intro s _ hp; exact absurd rfl hp
  | @step st1 st2 _ hstep ih =>
      intro s hs hnp d hd
      obtain ⟨s0, hs0, v, rfl, hsrc, hpdeps⟩ := schedStep_shape plan hstep
      by_cases hid : s.step_id = s0.step_id
      · have hss : s = s0 := List.inj_on_of_nodup_map hnd hs hs0 hid
        subst hss
        by_cases hpend : st1 s.step_id = .pending
        · have hdeps := hpdeps hpend d hd
          unfold updateStatus
          by_cases hde : d = s.step_id
          · rw [hde, hpend] at hdeps
            exact absurd hdeps (by simp [StepStatus.isTerminal])
          · rw [if_neg hde]
            exact hdeps
        · have hdeps := ih s hs hpend d hd
          unfold updateStatus
          by_cases hde : d = s.step_id
          · rw [hde] at hdeps
            rw [hdeps] at hsrc
            exact Bool.noConfusion hsrc
          · rw [if_neg hde]
            exact hdeps
      · have hnp2 : st1 s.step_id ≠ .pending := by
          unfold updateStatus at hnp
          rw [if_neg hid] at hnp
          exact hnp
        have hdeps := ih s hs hnp2 d hd
        unfold updateStatus
        by_cases hde : d = s0.step_id
        · rw [hde] at hdeps
          rw [hdeps] at hsrc
          exact Bool.noConfusion hsrc
        · rw [if_neg hde]
          exact hdeps

/-- C3: in every reachable scheduler state of a plan with distinct step
ids, a `RUNNING` step has every dependency in a terminal status — a step is
never dispatched before its dependencies finish. -/
theorem scheduler_no_early_dispatch (plan : Plan)
    (hnd : (plan.steps.map Step.step_id).Nodup)
    (st : String → StepStatus) (hre : Reachable plan st) :
    ∀ s ∈ plan.steps, st s.step_id = .running →
      ∀ d ∈ s.dependencies, (st d).isTerminal = true := by
  intro s hs hrun
  apply reachable_dep_inv plan hnd hre s hs
  rw [hrun]
  exact fun h => StepStatus.noConfusion h

/-- C3 witness: a concrete two-step run in which the dependent step is
running and its dependency is indeed terminal. -/
theorem scheduler_no_early_dispatch_witness :
    (sState5 "s1").isTerminal = true := by
  have r1 : Reachable planAB sState1 :=
    Reachable.init.step
      (SchedStep.markReady initialStatuses stepA (by simp [planAB]) rfl (by simp [stepA]))
  have r2 : Reachable planAB sState2 :=
    r1.step (SchedStep.dispatch sState1 stepA (by simp [planAB]) (by decide))
  have r3 : Reachable planAB sState3 :=
    r2.step (SchedStep.finishSucceeded sState2 stepA (by simp [planAB]) (by decide))
  have r4 : Reachable planAB sState4 :=
    r3.step (SchedStep.markReady sState3 stepB (by simp [planAB]) (by decide) (by decide))
  have r5 : Reachable planAB sState5 :=
    r4.step (SchedStep.dispatch sState4 stepB (by simp [planAB]) (by decide))
  exact scheduler_no_early_dispatch planAB (by decide) sState5 r5 stepB
    (by simp [planAB]) (by decide) "s1" (by simp [stepB])

/-- Helper: when every step of the plan is terminal, the aggregation yields
`completed` or `completedWithFallback`. -/
theorem overallStatus_terminal (plan : Plan) (st : String → StepStatus)
    (hterm : ∀ s ∈ plan.steps, (st s.step_id).isTerminal = true) :
    overallStatus plan st = .completed ∨
    overallStatus plan st = .completedWithFallback := by
  unfold overallStatus
  have hterm2 : plan.steps.all (fun s => (st s.step_id).isTerminal) = true :=
    List.all_eq_true.mpr hterm
  rw [if_pos hterm2]
  by_cases hsucc : plan.steps.all (fun s => st s.step_id = StepStatus.succeeded) = true
  · rw [if_pos hsucc]
    exact Or.inl rfl
  · rw [if_neg hsucc]
    have hsucc2 : plan.steps.all (fun s => st s.step_id = StepStatus.succeeded) = false := by
      simpa using hsucc
    have hany : plan.steps.any (fun s => st s.step_id = StepStatus.degradedComplete) = true := by
      rw [List.all_eq_false] at hsucc2
      obtain ⟨s, hs, hns⟩ := hsucc2
      have hts := hterm s hs
      apply List.any_eq_true.mpr
      refine ⟨s, hs, ?_⟩
      cases hcase : st s.step_id <;>
        rw [hcase] at hts hns <;> simp_all [StepStatus.isTerminal]
    rw [if_pos hany]
    exact Or.inr rfl

/-- Helper: the aggregation never yields `failed` on any status
assignment. -/
theorem overallStatus_ne_failed (plan : Plan) (st : String → StepStatus) :
    overallStatus plan st ≠ .failed := by
  by_cases hterm : ∀ s ∈ plan.steps, (st s.step_id).isTerminal = true
  · rcases overallStatus_terminal plan st hterm with h | h <;> rw [h] <;> simp
  · unfold overallStatus
    have hterm2 : plan.steps.all (fun s => (st s.step_id).isTerminal) = false := by
      rw [List.all_eq_false]
      push_neg at hterm
      obtain ⟨s, hs, h⟩ := hterm
      exact ⟨s, hs, by simpa using h⟩
    rw [if_neg (by simp [hterm2])]
    simp

/-- C1: along every reachable scheduler execution the process-level status
is never `failed`; once every step is terminal the observed status is
`completed` or `completedWithFallback`. -/
theorem process_status_spec (plan : Plan) (st : String → StepStatus)
    (hre : Reachable plan st) :
    overallStatus plan st ≠ .failed ∧
    ((∀ s ∈ plan.steps, (st s.step_id).isTerminal = true) →
      overallStatus plan st = .completed ∨
      overallStatus plan st = .completedWithFallback) :=
  ⟨overallStatus_ne_failed plan st, fun hterm => overallStatus_terminal plan st hterm⟩

/-- C1 witness: a concrete one-step run to completion observes `completed`
or `completedWithFallback` and never `failed`. -/
theorem process_status_spec_witness :
    overallStatus planA sState3 ≠ .failed ∧
    ((∀ s ∈ planA.steps, (sState3 s.step_id).isTerminal = true) →
      overallStatus planA sState3 = .completed ∨
      overallStatus planA sState3 = .completedWithFallback) := by
  have r1 : Reachable planA sState1 :=
    Reachable.init.step
      (SchedStep.markReady initialStatuses stepA (by simp [planA]) rfl (by simp [stepA]))
  have r2 : Reachable planA sState2 :=
    r1.step (SchedStep.dispatch sState1 stepA (by simp [planA]) (by decide))
  have r3 : Reachable planA sState3 :=
    r2.step (SchedStep.finishSucceeded sState2 stepA (by simp [planA]) (by decide))
  exact process_status_spec planA sState3 r3

/-- C8: whenever the top two candidates of a query rank within the
ambiguity margin of each other, the store answers `AMBIGUOUS` instead of
returning either candidate as the top match. -/
theorem query_ambiguous_margin (store : FactStore) (rc : List (String × Nat))
    (margin : Nat) (q : String) (r1 r2 : FactRow)
    (h1 : r1 ∈ queryCandidates store (tokenize q))
    (h2 : r2 ∈ (queryCandidates store (tokenize q)).erase r1)
    (hmax1 : ∀ r ∈ queryCandidates store (tokenize q),
      candidateScore (tokenize q) rc r ≤ candidateScore (tokenize q) rc r1)
    (hmax2 : ∀ r ∈ (queryCandidates store (tokenize q)).erase r1,
      candidateScore (tokenize q) rc r ≤ candidateScore (tokenize q) rc r2)
    (hmargin : candidateScore (tokenize q) rc r1 - candidateScore (tokenize q) rc r2
      ≤ margin) :
    ∃ t u, query store rc margin q = .ambiguous t u := by
  have hlen2 : 2 ≤ (queryCandidates store (tokenize q)).length := by
    have hel : ((queryCandidates store (tokenize q)).erase r1).length
        = (queryCandidates store (tokenize q)).length - 1 := List.length_erase_of_mem h1
    have h0 : 0 < ((queryCandidates store (tokenize q)).erase r1).length :=
      List.length_pos.mpr (List.ne_nil_of_mem h2)
    have h1p : 0 < (queryCandidates store (tokenize q)).length :=
      List.length_pos.mpr (List.ne_nil_of_mem h1)
    omega
  have hperm := List.perm_insertionSort (scoreOrder (tokenize q) rc)
    (queryCandidates store (tokenize q))
  have hsort := List.sorted_insertionSort (scoreOrder (tokenize q) rc)
    (queryCandidates store (tokenize q))
  obtain ⟨x, y, rest, hm⟩ : ∃ x y rest,
      List.insertionSort (scoreOrder (tokenize q) rc) (queryCandidates store (tokenize q))
        = x :: y :: rest := by
    have hslen : 2 ≤ (List.insertionSort (scoreOrder (tokenize q) rc)
        (queryCandidates store (tokenize q))).length := by
      rw [hperm.length_eq]
      exact hlen2
    cases hc : List.insertionSort (scoreOrder (tokenize q) rc)
        (queryCandidates store (tokenize q)) with
    | nil => rw [hc] at hslen; simp at hslen
    | cons x t =>
        cases t with
        | nil => rw [hc] at hslen; simp at hslen
        | cons y rest => exact ⟨x, y, rest, rfl⟩
  rw [hm] at hperm hsort
  have hxc : x ∈ queryCandidates store (tokenize q) := hperm.subset (by simp)
  have hx_le : candidateScore (tokenize q) rc x ≤ candidateScore (tokenize q) rc r1 :=
    hmax1 x hxc
  have hsc := List.sorted_cons.mp hsort
  have hsc2 := List.sorted_cons.mp hsc.2
  have hr2y : candidateScore (tokenize q) rc r2 ≤ candidateScore (tokenize q) rc y := by
    by_cases hxr : x = r1
    · have hperm2 : List.Perm ((x :: y :: rest).erase r1)
          ((queryCandidates store (tokenize q)).erase r1) :=
        hperm.erase r1
      have herase : (x :: y :: rest).erase r1 = y :: rest := by
        rw [hxr, List.erase_cons_head]
      have hr2mem : r2 ∈ y :: rest := by
        rw [← herase]
        exact hperm2.symm.subset h2
      rcases List.mem_cons.mp hr2mem with h | h
      · rw [h]
      · exact hsc2.1 r2 h
    · have hr1mem : r1 ∈ y :: rest := by
        have hall : r1 ∈ x :: y :: rest := hperm.symm.subset h1
        rcases List.mem_cons.mp hall with h | h
        · exact absurd h.symm hxr
        · exact h
      have hr1y : candidateScore (tokenize q) rc r1 ≤ candidateScore (tokenize q) rc y := by
        rcases List.mem_cons.mp hr1mem with h | h
        · rw [h]
        · exact hsc2.1 r1 h
      have hr2r1 : candidateScore (tokenize q) rc r2 ≤ candidateScore (tokenize q) rc r1 :=
        hmax1 r2 (List.mem_of_mem_erase h2)
      exact le_trans hr2r1 hr1y
  have hfinal : candidateScore (tokenize q) rc x - candidateScore (tokenize q) rc y
      ≤ margin := by
    omega
  refine ⟨x, y, ?_⟩
  unfold query
  rw [hm]
  simp only [pickTop]
  rw [if_pos hfinal]

/-- C8 witness: two equally scored hamburger facts with margin 0 give an
`AMBIGUOUS` answer. -/
theorem query_ambiguous_margin_witness :
    ∃ t u, query storeMB [] 0 "hamburger" = .ambiguous t u :=
  query_ambiguous_margin storeMB [] 0 "hamburger" factM factB
    (by decide) (by decide) (by decide) (by decide) (by decide)

end Alfred
